import Mathlib

/-!
Shallow embedding of the platform/toolchain manager implemented in
src/platformio/managers/platform.py, together with proofs about its
package-requirement resolution, dependency-aware cleanup, package
selection/installation, plugin loading, board catalog and build-output
classification logic.

Machine-level conventions of the embedding:
* semantic versions are modelled as numeric major.minor.patch triples
  (pre-release and build metadata are not exercised by this module);
* a version-constraint string is carried together with the result of
  parsing it (none when semantic_version.Spec raises ValueError) — the
  string-level grammar of constraints is orthogonal to this module;
* Python dicts keyed by strings are modelled as association lists in
  insertion order, and Python sets by membership in lists;
* fallible operations return Except / Option values in place of raised
  exceptions, and calls issued to the external Package Store are
  collected as explicit traces.
-/

/-- Semantic version (semantic_version.Version), as a numeric triple. -/
structure SemVer where
  major : Nat
  minor : Nat
  patch : Nat
deriving DecidableEq

/-- Strict semantic-version order: semantic_version.compare a b returns 1
exactly when vlt b a holds. -/
def vlt (v w : SemVer) : Bool :=
  decide (v.major < w.major ∨ (v.major = w.major ∧
    (v.minor < w.minor ∨ (v.minor = w.minor ∧ v.patch < w.patch))))

/-- One comparator of a semantic_version.Spec expression. -/
inductive CmpOp
  | lt
  | le
  | gt
  | ge
  | eq
  | ne
deriving DecidableEq

/-- A parsed version-constraint expression: a conjunction of comparators. -/
abbrev ReqSpec := List (CmpOp × SemVer)

/-- Whether one comparator accepts a version. -/
def cmpMatch (op : CmpOp) (v target : SemVer) : Bool :=
  match op with
  | .lt => vlt v target
  | .le => vlt v target || decide (v = target)
  | .gt => vlt target v
  | .ge => vlt target v || decide (v = target)
  | .eq => decide (v = target)
  | .ne => decide (v ≠ target)

/-- semantic_version.Spec.match: every comparator must accept the version. -/
def specMatch (s : ReqSpec) (v : SemVer) : Bool :=
  s.all (fun c => cmpMatch c.1 v c.2)

/-- A version-constraint expression as it appears in a manifest: the raw
string together with its parse result (none when parsing raises
ValueError, which the source swallows). -/
structure VersionReq where
  raw : String
  spec : Option ReqSpec
deriving DecidableEq

/-- The per-package options of a platform manifest's packages entry:
version constraint, optional flag and type tag. -/
structure PkgOpts where
  version : VersionReq
  optional : Bool := false
  type_ : Option String := none
deriving DecidableEq

/-- An installed package record supplied by the Package Store. -/
structure InstalledPackage where
  name : String
  version : SemVer
deriving DecidableEq

/-- The inner loop of PlatformPackagesMixin.get_installed_packages for one
requirement: scan the store's installed list, skipping entries with a
different name, skipping version-filtered entries when the constraint
parsed, and keeping the strictly greater candidate otherwise. -/
def resolveOne (name : String) (reqspec : Option ReqSpec)
    (installed : List InstalledPackage) : Option InstalledPackage :=
  installed.foldl
    (fun manifest p =>
      if p.name ≠ name then manifest
      else if reqspec.isSome && !(specMatch (reqspec.getD []) p.version) then manifest
      else
        match manifest with
        | none => some p
        | some m => if vlt m.version p.version then some p else some m)
    none

/-- PlatformPackagesMixin.get_installed_packages: map each declared
requirement to its resolved installed candidate, dropping requirements
with no match. -/
def get_installed_packages (packages : List (String × PkgOpts))
    (installed : List InstalledPackage) : List (String × InstalledPackage) :=
  packages.foldl
    (fun items np =>
      match resolveOne np.1 np.2.version.spec installed with
      | some m => items ++ [(np.1, m)]
      | none => items)
    []

/-- The dependency map built by PlatformManager.cleanup_packages: the
(name, version) pairs resolved by at least one installed platform, where
each installed platform is given by its (augmented) packages list. -/
def deppkgs (platforms : List (List (String × PkgOpts)))
    (installed : List InstalledPackage) : List (String × SemVer) :=
  platforms.foldl
    (fun acc pl =>
      acc ++ (get_installed_packages pl installed).map (fun nm => (nm.1, nm.2.version)))
    []

/-- PlatformManager.cleanup_packages: the list of uninstall calls issued,
i.e. the installed packages whose name is among the candidate names and
whose exact name+version is not depended upon by any installed platform. -/
def cleanup_packages (names : List String)
    (platforms : List (List (String × PkgOpts)))
    (installed : List InstalledPackage) : List InstalledPackage :=
  installed.filter
    (fun m =>
      decide (m.name ∈ names) &&
      !decide ((m.name, m.version) ∈ deppkgs platforms installed))

/-- PlatformBase.pkg_types_to_names: expand each with/without token — every
declared package whose type tag equals the token contributes its name; a
token matched by no declared type survives the loop in `name` and the
closing `if name:` truthiness test appends it only when it is non-empty,
so an unmatched empty-string token is silently dropped. -/
def pkg_types_to_names (packages : List (String × PkgOpts))
    (types : List String) : List String :=
  types.foldl
    (fun names t =>
      let matching := packages.filter (fun np => np.2.type_ == some t)
      if matching.isEmpty then
        (if t = "" then names else names ++ [t])
      else names ++ matching.map Prod.fst)
    []

/-- One pm.install invocation issued by install_packages: a combined
"name=version" location spec when the version string holds a path
separator, otherwise a name with a separate version argument. -/
inductive InstallCall
  | locationSpec (arg : String)
  | nameVersion (name : String) (version : String)
deriving DecidableEq

/-- The pm.install call install_packages issues for one selected package. -/
def install_call (np : String × PkgOpts) : InstallCall :=
  if np.2.version.raw.toList.contains '\\' || np.2.version.raw.toList.contains '/' then
    .locationSpec (np.1 ++ "=" ++ np.2.version.raw)
  else
    .nameVersion np.1 np.2.version.raw

/-- PlatformPackagesMixin.install_packages: expand the with/without tokens,
fail with UnknownPackage (returning the offending tokens, no install call
issued) unless their union is a subset of the declared names, then install
every declared package not excluded by without and either named in with or
selected by default (not optional, default selection not skipped). The
first component is the trace of pm.install calls, the second the
UnknownPackage payload when raised. -/
def install_packages (packages : List (String × PkgOpts))
    (with_packages without_packages : List String)
    (skip_default_package : Bool) : List InstallCall × Option (List String) :=
  let wp := pkg_types_to_names packages with_packages
  let wop := pkg_types_to_names packages without_packages
  let ppkgs := packages.map Prod.fst
  let offending := ((wp ++ wop).filter (fun t => !ppkgs.contains t)).dedup
  if offending.isEmpty then
    (packages.filterMap
      (fun np =>
        if wop.contains np.1 then none
        else if wp.contains np.1 || !(skip_default_package || np.2.optional) then
          some (install_call np)
        else none),
     none)
  else ([], some offending)

/-- The error taxonomy of this module, plus the Python exceptions that
escape it unchanged (AttributeError from getattr, any non-ImportError
raised while executing a plugin module). -/
inductive PioError
  | unknownPlatform (name : String)
  | unknownBoard (id : String)
  | attributeError
  | otherException
deriving DecidableEq

/-- How loading a custom platform.py plugin can turn out: the module
imports (and does or does not define the conventionally named class), or
it raises ImportError, or it raises some other exception. -/
inductive LoadOutcome
  | loaded (hasCls : Bool)
  | importError
  | otherError
deriving DecidableEq

/-- PlatformFactory.load_module: only ImportError is caught and folded
into UnknownPlatform; any other exception propagates. On success the
result records whether the conventionally named class is present. -/
def load_module (name : String) (outcome : LoadOutcome) : Except PioError Bool :=
  match outcome with
  | .loaded hasCls => .ok hasCls
  | .importError => .error (.unknownPlatform name)
  | .otherError => .error .otherException

/-- The implementation selected by PlatformFactory.newPlatform. -/
inductive PlatformCls
  | custom
  | defaultCls
deriving DecidableEq

/-- The implementation-selection step of PlatformFactory.newPlatform:
an unresolvable platform directory fails with UnknownPlatform; with a
custom platform.py present the module is loaded via load_module and the
conventionally named class fetched with getattr — whose absence raises
AttributeError, not UnknownPlatform; without custom code a default
implementation is synthesized. -/
def newPlatformCls (name : String) (platformDirFound : Bool)
    (customPlugin : Option LoadOutcome) : Except PioError PlatformCls :=
  if !platformDirFound then .error (.unknownPlatform name)
  else
    match customPlugin with
    | none => .ok .defaultCls
    | some outcome =>
      match load_module name outcome with
      | .error e => .error e
      | .ok hasCls => if hasCls then .ok .custom else .error .attributeError

/-- Whether a newPlatformCls outcome is an UnknownPlatform failure. -/
def isUnknownPlatformErr : Except PioError PlatformCls → Bool
  | .error (.unknownPlatform _) => true
  | _ => false

/-- The build sub-object of a board manifest. -/
structure BuildOpts where
  mcu : Option String := none
  f_cpu : Option String := none
deriving DecidableEq

/-- The upload sub-object of a board manifest. -/
structure UploadOpts where
  maximum_ram_size : Option Nat := none
  maximum_size : Option Nat := none
deriving DecidableEq

/-- A board manifest as loaded by PlatformBoardConfig (name, url and
vendor are asserted mandatory at construction; every other field may be
absent). -/
structure BoardManifest where
  name : String
  url : String
  vendor : String
  platform : Option String := none
  platforms : Option (List String) := none
  build : Option BuildOpts := none
  upload : Option UploadOpts := none
  frameworks : Option (List String) := none
deriving DecidableEq

/-- The _append_board helper of PlatformBase.get_boards, minus the cache
write: none when the board is silently excluded (a declared platform field
differing from the requesting platform, or a platforms list not containing
it), otherwise the manifest with the requesting platform's name written
into its platform field. -/
def append_board (platformName : String) (config : BoardManifest) :
    Option BoardManifest :=
  if config.platform.isSome && config.platform != some platformName then none
  else if (match config.platforms with
           | some ps => !ps.contains platformName
           | none => false) then none
  else some { config with platform := some platformName }

/-- The per-instance board cache _BOARDS_CACHE, as an association list in
insertion order. -/
abbrev BoardsCache := List (String × BoardManifest)

/-- Python dict assignment cache[id] = cfg: overwrite the existing entry
for the key, or append a new one. -/
def cacheInsert (cache : BoardsCache) (id : String) (cfg : BoardManifest) :
    BoardsCache :=
  if cache.any (fun e => e.1 == id) then
    cache.map (fun e => if e.1 == id then (id, cfg) else e)
  else cache ++ [(id, cfg)]

/-- The cache-filling step of the by-id branch of PlatformBase.get_boards:
when the id is not yet cached, visit the global board directory then the
platform-local board directory (each modelled as a map from board id to
manifest file), calling _append_board for every directory holding the
file — with no early exit, so a later compatible match overwrites an
earlier one. -/
def boards_cache_after (platformName : String)
    (globalBoards localBoards : List (String × BoardManifest))
    (cache : BoardsCache) (id : String) : BoardsCache :=
  if cache.any (fun e => e.1 == id) then cache
  else
    [globalBoards, localBoards].foldl
      (fun c dir =>
        match dir.lookup id with
        | none => c
        | some m =>
          match append_board platformName m with
          | none => c
          | some cfg => cacheInsert c id cfg)
      cache

/-- The by-id branch of PlatformBase.get_boards: fill the cache as
boards_cache_after does, then answer from the cache or fail with
UnknownBoard. Returns the board and the updated cache. -/
def get_boards_id (platformName : String)
    (globalBoards localBoards : List (String × BoardManifest))
    (cache : BoardsCache) (id : String) :
    Except PioError (BoardManifest × BoardsCache) :=
  match (boards_cache_after platformName globalBoards localBoards cache id).lookup id with
  | some cfg => .ok (cfg, boards_cache_after platformName globalBoards localBoards cache id)
  | none => .error (.unknownBoard id)

/-- Python int() on a nonnegative decimal string, none in place of the
ValueError raised on anything else (the manifests this module handles
carry f_cpu as a numeric string with a trailing unit character). -/
def pyInt (s : String) : Option Nat :=
  let cs := s.toList
  if !cs.isEmpty && cs.all Char.isDigit then
    some (cs.foldl (fun n c => 10 * n + (c.toNat - 48)) 0)
  else none

/-- Python character slicing s[:-1]: the string without its final
character (the empty string stays empty). -/
def stripLastChar (s : String) : String :=
  String.mk s.toList.dropLast

/-- The projection returned by PlatformBoardConfig.get_brief_data. -/
structure BriefData where
  id : String
  name : String
  platform : Option String
  mcu : String
  fcpu : Option Nat
  ram : Nat
  rom : Nat
  frameworks : Option (List String)
  vendor : String
  url : String
deriving DecidableEq

/-- PlatformBoardConfig.get_brief_data: project the manifest, upper-casing
the mcu, parsing f_cpu as an integer after dropping its final character
(the int() of the source; none models the ValueError on a malformed
string), and defaulting the RAM/ROM limits to 0. -/
def get_brief_data (id : String) (m : BoardManifest) : BriefData :=
  { id := id
    name := m.name
    platform := m.platform
    mcu := ((m.build.bind BuildOpts.mcu).getD "").toUpper
    fcpu := pyInt (stripLastChar ((m.build.bind BuildOpts.f_cpu).getD ""))
    ram := (m.upload.bind UploadOpts.maximum_ram_size).getD 0
    rom := (m.upload.bind UploadOpts.maximum_size).getD 0
    frameworks := m.frameworks
    vendor := m.vendor
    url := m.url }

/-- The slice of a platform manifest that drives the packages property:
the declared packages and the engines.scons fallback range. -/
structure PlatformManifest where
  name : String
  version : String
  packages : List (String × PkgOpts) := []
  engines_scons : Option VersionReq := none
deriving DecidableEq

/-- The default build-engine version range ">=2.3.0,<2.6.0" used when the
manifest declares no engines.scons range. -/
def defaultSconsReq : VersionReq :=
  { raw := ">=2.3.0,<2.6.0",
    spec := some [(CmpOp.ge, ⟨2, 3, 0⟩), (CmpOp.lt, ⟨2, 6, 0⟩)] }

/-- PlatformBase.packages: the manifest-declared packages, augmented with
an implicit non-optional tool-scons requirement when none is declared,
whose range is engines.scons if present and the default range otherwise. -/
def platform_packages (m : PlatformManifest) : List (String × PkgOpts) :=
  let pkgs := m.packages
  if pkgs.any (fun np => np.1 == "tool-scons") then pkgs
  else
    pkgs ++ [("tool-scons",
      { version := m.engines_scons.getD defaultSconsReq,
        optional := false, type_ := none })]

/-- One character of the regex \s class. -/
def isSpaceChar (c : Char) : Bool :=
  c == ' ' || c == '\t' || c == '\n' || c == '\r' ||
  c == '\x0b' || c == '\x0c'

/-- Case-insensitive literal "error" at position i of the line. -/
def errorAt (cs : List Char) (i : Nat) : Bool :=
  ((cs.drop i).take 5).map Char.toLower == ['e', 'r', 'r', 'o', 'r']

/-- A match of LINE_ERROR_RE = (\s+error|error[:\s]+) starting around
position i: either a whitespace character followed by "error", or "error"
followed by a colon-or-whitespace character (a one-repetition match
exists exactly when any match exists). -/
def lineErrorMatchAt (cs : List Char) (i : Nat) : Bool :=
  ((match cs.get? i with
    | some c => isSpaceChar c
    | none => false) && errorAt cs (i + 1)) ||
  (errorAt cs i &&
    (match cs.get? (i + 5) with
     | some c => c == ':' || isSpaceChar c
     | none => false))

/-- LINE_ERROR_RE.search(line) is not None: some position of the line
starts a match. -/
def lineErrorSearch (line : String) : Bool :=
  (List.range line.toList.length).any (fun i => lineErrorMatchAt line.toList i)

/-- One click.secho call issued by _echo_line: the line and its severity
level (1 info, 2 warning, 3 error). -/
structure EchoCall where
  line : String
  level : Nat
deriving DecidableEq

/-- PlatformRunMixin.on_run_err: an stderr line matching LINE_ERROR_RE is
echoed at level 3 (error), every other stderr line at level 2 (warning). -/
def on_run_err (line : String) : EchoCall :=
  { line := line, level := if lineErrorSearch line then 3 else 2 }

/-- The foreground colour _echo_line picks for a severity level, via the
tuple (None, "yellow", "red") indexed by level - 1. -/
def echo_fg (level : Nat) : Option String :=
  [none, some "yellow", some "red"].getD (level - 1) none

/-- One maximum-keeping step of the candidate scan of
get_installed_packages: keep the running candidate unless the new one has
a strictly greater version. -/
def maxStep (manifest : Option InstalledPackage) (p : InstalledPackage) :
    Option InstalledPackage :=
  match manifest with
  | none => some p
  | some m => if vlt m.version p.version then some p else some m

/-- The first strictly-maximal candidate of a list, as the scan of
get_installed_packages computes it. -/
def pickMax (l : List InstalledPackage) : Option InstalledPackage :=
  l.foldl maxStep none

/-- The installed candidates one requirement of get_installed_packages
does not skip: same name, and version accepted whenever the constraint
parsed. -/
def candidatesFor (name : String) (rs : Option ReqSpec)
    (installed : List InstalledPackage) : List InstalledPackage :=
  installed.filter
    (fun p => decide (p.name = name) && !(rs.isSome && !specMatch (rs.getD []) p.version))

/-- The requirement of the spec's resolution scenario:
toolchain-x with constraint ">=1.0.0,<2.0.0". -/
def toolchainScenarioPkgs : List (String × PkgOpts) :=
  [("toolchain-x",
    { version := { raw := ">=1.0.0,<2.0.0",
                   spec := some [(CmpOp.ge, ⟨1, 0, 0⟩), (CmpOp.lt, ⟨2, 0, 0⟩)] } })]

/-- The installed store of the spec's resolution scenario:
toolchain-x at versions 1.2.0, 1.5.0 and 2.0.0. -/
def toolchainScenarioInstalled : List InstalledPackage :=
  [⟨"toolchain-x", ⟨1, 2, 0⟩⟩, ⟨"toolchain-x", ⟨1, 5, 0⟩⟩, ⟨"toolchain-x", ⟨2, 0, 0⟩⟩]

/-- The packages of the spec's selection scenario: tool-a an optional
uploader, tool-b non-optional. -/
def uploaderScenarioPkgs : List (String × PkgOpts) :=
  [("tool-a", { version := { raw := "*", spec := some [] },
                optional := true, type_ := some "uploader" }),
   ("tool-b", { version := { raw := "*", spec := some [] },
                optional := false, type_ := none })]

/-- A board manifest named "G" standing in the global board directory. -/
def cexGlobalBoard : BoardManifest :=
  { name := "G", url := "u", vendor := "v" }

/-- A board manifest named "L" standing in the platform-local board
directory under the same id as cexGlobalBoard. -/
def cexLocalBoard : BoardManifest :=
  { name := "L", url := "u", vendor := "v" }

/-! ## Helper lemmas -/

theorem vlt_iff (v w : SemVer) :
    vlt v w = true ↔
      (v.major < w.major ∨ (v.major = w.major ∧
        (v.minor < w.minor ∨ (v.minor = w.minor ∧ v.patch < w.patch)))) := by
  simp [vlt]

theorem vlt_irrefl (v : SemVer) : vlt v v = false := by
  simp [vlt]

theorem vlt_asymm (v w : SemVer) (h : vlt v w = true) : vlt w v = false := by
  rw [vlt_iff] at h
  simp only [vlt, decide_eq_false_iff_not]
  omega

theorem vlt_trans (a b c : SemVer) (h1 : vlt a b = true) (h2 : vlt b c = true) :
    vlt a c = true := by
  rw [vlt_iff] at h1 h2 ⊢
  omega

theorem vlt_total (v w : SemVer) (h1 : vlt v w = false) (h2 : vlt w v = false) :
    v.major = w.major ∧ v.minor = w.minor ∧ v.patch = w.patch := by
  simp only [vlt, decide_eq_false_iff_not] at h1 h2
  omega

theorem vlt_eq_of_not (v w : SemVer) (h1 : vlt v w = false) (h2 : vlt w v = false) :
    v = w := by
  obtain ⟨h3, h4, h5⟩ := vlt_total v w h1 h2
  cases v; cases w
  simp_all

theorem vlt_lt_of_lt_of_not_lt (a b c : SemVer)
    (h1 : vlt a b = true) (h2 : vlt c b = false) : vlt a c = true := by
  rw [vlt_iff] at h1 ⊢
  simp only [vlt, decide_eq_false_iff_not] at h2
  omega

theorem vlt_not_of_not_of_not (a b c : SemVer)
    (h1 : vlt a b = false) (h2 : vlt b c = false) : vlt a c = false := by
  simp only [vlt, decide_eq_false_iff_not] at h1 h2 ⊢
  omega

theorem vlt_of_not_of_lt (a b c : SemVer)
    (h1 : vlt b a = false) (h2 : vlt b c = true) : vlt a c = true := by
  rw [vlt_iff] at h2 ⊢
  simp only [vlt, decide_eq_false_iff_not] at h1
  omega

theorem vlt_ne (v w : SemVer) (h : vlt v w = true) : v ≠ w := by
  intro he
  subst he
  rw [vlt_irrefl] at h
  exact absurd h (by simp)

/-! ## Claim theorems: plugin loading (C4) -/

/-- C4 counterexample: a custom platform.py that imports fine but does not
define the conventionally named class makes newPlatform fail with the
propagated AttributeError of getattr, not with UnknownPlatform — so not
every plugin-load failure is surfaced as UnknownPlatform. -/
theorem newPlatform_missing_class_not_unknown :
    newPlatformCls "esp32" true (some (.loaded false)) = .error PioError.attributeError ∧
    isUnknownPlatformErr (newPlatformCls "esp32" true (some (.loaded false))) = false := by
  constructor <;> rfl

/-- C4 amended: an unresolvable platform directory, or an ImportError
raised while loading the custom plugin module, is surfaced as
UnknownPlatform (carrying the platform name); but a module that loads
without the conventionally named class fails with the AttributeError of
getattr, and a non-ImportError load failure propagates unchanged. -/
theorem newPlatform_error_folding :
    ∀ (name : String) (dirFound : Bool) (outcome : LoadOutcome),
      (newPlatformCls name dirFound (some outcome) = .error (.unknownPlatform name) ↔
        (dirFound = false ∨ outcome = .importError)) ∧
      (dirFound = true → outcome = .loaded false →
        newPlatformCls name dirFound (some outcome) = .error .attributeError) ∧
      (dirFound = true → outcome = .otherError →
        newPlatformCls name dirFound (some outcome) = .error .otherException) := by
  intro name dirFound outcome
  cases dirFound <;> cases outcome <;>
    simp_all [newPlatformCls, load_module]
  rename_i hasCls
  cases hasCls <;> simp

/-- C4 amended, witness: an ImportError raised while loading the plugin of
platform "esp32" is reported as UnknownPlatform "esp32". -/
theorem newPlatform_error_folding_witness :
    newPlatformCls "esp32" true (some .importError) =
      .error (.unknownPlatform "esp32") :=
  (newPlatform_error_folding "esp32" true .importError).1.mpr (Or.inr rfl)

/-! ## Claim theorems: board compatibility filtering (C5) -/

/-- C5: a board manifest is accepted into a platform's catalog exactly
when its platform field, if present, names that platform and its
platforms list, if present, contains it; acceptance writes the requesting
platform's name into the manifest's platform field; and a board declaring
platforms=["esp8266","esp32"] is excluded for "avr" and included for
"esp32". -/
theorem get_boards_compat_filter :
    (∀ (pname : String) (config : BoardManifest),
      ((append_board pname config).isSome = true ↔
        ((config.platform = none ∨ config.platform = some pname) ∧
         (∀ ps, config.platforms = some ps → pname ∈ ps))) ∧
      (∀ c, append_board pname config = some c →
        c = { config with platform := some pname })) ∧
    append_board "avr"
      { name := "E", url := "u", vendor := "v",
        platforms := some ["esp8266", "esp32"] } = none ∧
    append_board "esp32"
      { name := "E", url := "u", vendor := "v",
        platforms := some ["esp8266", "esp32"] } =
      some { name := "E", url := "u", vendor := "v",
             platform := some "esp32", platforms := some ["esp8266", "esp32"] } := by
  refine ⟨fun pname config => ⟨?_, ?_⟩, by decide, by decide⟩
  · obtain ⟨n, u, ve, plat, plats, b, up, fw⟩ := config
    cases plat <;> cases plats <;>
      (simp [append_board]; try (split_ifs <;> simp_all))
  · intro c hc
    obtain ⟨n, u, ve, plat, plats, b, up, fw⟩ := config
    cases plat <;> cases plats <;> simp_all [append_board]

/-- C5 witness: instantiating the acceptance characterization for the
esp32 platform on the scenario board. -/
theorem get_boards_compat_filter_witness :
    (append_board "esp32"
      { name := "E", url := "u", vendor := "v",
        platforms := some ["esp8266", "esp32"] }).isSome = true :=
  (get_boards_compat_filter.1 "esp32"
    { name := "E", url := "u", vendor := "v",
      platforms := some ["esp8266", "esp32"] }).1.mpr
    ⟨Or.inl rfl, by intro ps hps; cases hps; simp⟩

/-! ## Claim theorems: brief data clock frequency (C6) -/

/-- C6: the brief data's clock-frequency field is the integer parse of
build.f_cpu with its final (unit) character stripped; in particular
f_cpu="16000000L" yields 16000000. -/
theorem get_brief_data_fcpu :
    (∀ (id : String) (m : BoardManifest),
      (get_brief_data id m).fcpu =
        pyInt (stripLastChar ((m.build.bind BuildOpts.f_cpu).getD ""))) ∧
    (get_brief_data "uno"
      { name := "Uno", url := "u", vendor := "Arduino",
        build := some { mcu := some "atmega328p", f_cpu := some "16000000L" } }).fcpu =
      some 16000000 :=
  ⟨fun _ _ => rfl, by decide⟩

/-! ## Claim theorems: implicit build-engine requirement (C7) -/

/-- C7: the platform's packages are the manifest-declared ones, plus — when
no tool-scons package is declared — an implicit non-optional tool-scons
requirement whose range is the manifest's engines.scons fallback if
declared and the default range ">=2.3.0,<2.6.0" otherwise. -/
theorem platform_packages_scons :
    ∀ (m : PlatformManifest),
      (m.packages.any (fun np => np.1 == "tool-scons") = true →
        platform_packages m = m.packages) ∧
      (m.packages.any (fun np => np.1 == "tool-scons") = false →
        platform_packages m = m.packages ++
          [("tool-scons",
            { version := m.engines_scons.getD defaultSconsReq,
              optional := false, type_ := none })]) ∧
      defaultSconsReq.raw = ">=2.3.0,<2.6.0" := by
  intro m
  refine ⟨fun h => ?_, fun h => ?_, rfl⟩ <;> simp [platform_packages, h]

/-- C7 witness: a manifest declaring no packages and no engines range gets
exactly the implicit default-range tool-scons requirement. -/
theorem platform_packages_scons_witness :
    platform_packages { name := "p", version := "1.0.0" } =
      [("tool-scons",
        { version := defaultSconsReq, optional := false, type_ := none })] := by
  have h := (platform_packages_scons { name := "p", version := "1.0.0" }).2.1 rfl
  simpa using h

/-! ## Claim theorems: stderr line classification (C9) -/

theorem lineErrorMatchAt_lt (cs : List Char) (i : Nat)
    (h : lineErrorMatchAt cs i = true) : i < cs.length := by
  simp only [lineErrorMatchAt, Bool.or_eq_true, Bool.and_eq_true] at h
  rcases h with ⟨h1, -⟩ | ⟨-, h2⟩
  · rcases hg : cs.get? i with - | c
    · rw [hg] at h1; exact absurd h1 (by simp)
    · exact (List.get?_eq_some.mp hg).1
  · rcases hg : cs.get? (i + 5) with - | c
    · rw [hg] at h2; exact absurd h2 (by simp)
    · have := (List.get?_eq_some.mp hg).1
      omega

theorem lineErrorSearch_iff (line : String) :
    lineErrorSearch line = true ↔ ∃ i, lineErrorMatchAt line.toList i = true := by
  constructor
  · intro h
    rw [lineErrorSearch, List.any_eq_true] at h
    obtain ⟨i, -, hi⟩ := h
    exact ⟨i, hi⟩
  · rintro ⟨i, hi⟩
    rw [lineErrorSearch, List.any_eq_true]
    exact ⟨i, List.mem_range.mpr (lineErrorMatchAt_lt _ _ hi), hi⟩

/-- C9: an stderr line is echoed as an error (level 3, red) exactly when
some position of the line matches the case-insensitive pattern
"whitespace then error, or error then colon-or-whitespace"; every
non-matching stderr line is echoed as a warning (level 2, yellow). -/
theorem on_run_err_classification :
    ∀ (line : String),
      ((on_run_err line).level = 3 ↔ ∃ i, lineErrorMatchAt line.toList i = true) ∧
      ((on_run_err line).level = 3 ∨ (on_run_err line).level = 2) ∧
      ((on_run_err line).level = 2 → ∀ i, lineErrorMatchAt line.toList i = false) ∧
      echo_fg 3 = some "red" ∧ echo_fg 2 = some "yellow" := by
  intro line
  refine ⟨?_, ?_, ?_, rfl, rfl⟩
  · rw [← lineErrorSearch_iff]
    simp only [on_run_err]
    split_ifs with h <;> simp [h]
  · simp only [on_run_err]
    split_ifs <;> simp
  · intro h2 i
    simp only [on_run_err] at h2
    split_ifs at h2 with h
    · exact absurd h2 (by simp)
    · rw [Bool.eq_false_iff]
      intro hi
      exact absurd ((lineErrorSearch_iff line).mpr ⟨i, hi⟩) (by simp [h])

/-- C9 witness: the stderr line "x error: y" (whitespace before "error")
is classified as an error. -/
theorem on_run_err_classification_witness :
    (on_run_err "x error: y").level = 3 :=
  (on_run_err_classification "x error: y").1.mpr ⟨1, by decide⟩

/-! ## Claim theorems: validation before installation (C10) -/

/-- C10: whenever install_packages fails with UnknownPackage, its trace of
pm.install calls is empty — the with/without tokens are validated before
any install call is issued, so the installed set is unchanged on error. -/
theorem install_packages_error_no_calls :
    ∀ (packages : List (String × PkgOpts)) (w wo : List String) (skip : Bool)
      (errs : List String),
      (install_packages packages w wo skip).2 = some errs →
      (install_packages packages w wo skip).1 = [] := by
  intro packages w wo skip errs h
  simp only [install_packages] at h ⊢
  split at h
  next hc => exact absurd h (by simp)
  next hc => simp only [if_neg hc]

/-- C10 witness: requesting the undeclared token "bogus" yields an
UnknownPackage failure with an empty install trace. -/
theorem install_packages_error_no_calls_witness :
    (install_packages uploaderScenarioPkgs ["bogus"] [] false).1 = [] :=
  install_packages_error_no_calls uploaderScenarioPkgs ["bogus"] [] false
    ["bogus"] (by decide)

/-! ## Claim theorems: package selection and installation (C3) -/

theorem foldl_append_flatMap {α β : Type} (g : α → List β) :
    ∀ (l : List α) (acc : List β),
      l.foldl (fun acc x => acc ++ g x) acc = acc ++ l.flatMap g := by
  intro l
  induction l with
  | nil => intro acc; simp
  | cons x t ih => intro acc; simp [ih]

theorem pkg_types_to_names_eq (packages : List (String × PkgOpts))
    (ts : List String) :
    pkg_types_to_names packages ts =
      ts.flatMap (fun t =>
        if (packages.filter (fun np => np.2.type_ == some t)).isEmpty then
          (if t = "" then [] else [t])
        else (packages.filter (fun np => np.2.type_ == some t)).map Prod.fst) := by
  have hb : (fun (names : List String) (t : String) =>
      let matching := packages.filter (fun np => np.2.type_ == some t)
      if matching.isEmpty then
        (if t = "" then names else names ++ [t])
      else names ++ matching.map Prod.fst) =
      (fun (names : List String) (t : String) => names ++
        (if (packages.filter (fun np => np.2.type_ == some t)).isEmpty then
          (if t = "" then [] else [t])
         else (packages.filter (fun np => np.2.type_ == some t)).map Prod.fst)) := by
    funext names t
    by_cases ht : t = ""
    · subst ht
      by_cases h : (packages.filter (fun np => np.2.type_ == some "")).isEmpty <;>
        simp [h]
    · by_cases h : (packages.filter (fun np => np.2.type_ == some t)).isEmpty <;>
        simp [h, ht]
  rw [pkg_types_to_names, hb, foldl_append_flatMap]
  rfl

theorem filterMap_ite_eq {α β : Type} (p : α → Bool) (f : α → β) :
    ∀ (l : List α),
      l.filterMap (fun x => if p x then some (f x) else none) = (l.filter p).map f := by
  intro l
  induction l with
  | nil => rfl
  | cons x t ih =>
    by_cases h : p x <;> simp [List.filterMap_cons, List.filter_cons, h, ih]

/-- C3 counterexample: an empty-string with-token matches no declared
type and is not a declared package name, yet it is NOT kept literally —
the closing `if name:` truthiness test drops it — so install_packages
does not fail with UnknownPackage there: it succeeds and installs the
default (non-optional) package, refuting the claim's "kept literally /
fails with UnknownPackage" behaviour at this input. -/
theorem install_packages_empty_token_dropped :
    pkg_types_to_names uploaderScenarioPkgs [""] = [] ∧
    (uploaderScenarioPkgs.filter (fun np => np.2.type_ == some "")).isEmpty = true ∧
    "" ∉ uploaderScenarioPkgs.map Prod.fst ∧
    (install_packages uploaderScenarioPkgs [""] [] false).2 = none ∧
    (install_packages uploaderScenarioPkgs [""] [] false).1 =
      [InstallCall.nameVersion "tool-b" "*"] := by
  refine ⟨rfl, rfl, by decide, rfl, by decide⟩

/-- C3 amended: install_packages expands each with/without token (a
declared type tag expands to all names of that type, an unmatched
non-empty token stays literal, an unmatched empty-string token is
silently dropped by the closing truthiness test), fails with
UnknownPackage naming exactly the expanded tokens outside the declared
names, and otherwise issues install calls for exactly the declared
packages not excluded by without that are either named in with or
selected by default. -/
theorem install_packages_selection :
    ∀ (packages : List (String × PkgOpts)) (w wo : List String) (skip : Bool),
      ((install_packages packages w wo skip).2 = none ↔
        ∀ t ∈ pkg_types_to_names packages w ++ pkg_types_to_names packages wo,
          t ∈ packages.map Prod.fst) ∧
      (∀ errs, (install_packages packages w wo skip).2 = some errs →
        ∀ t, t ∈ errs ↔
          (t ∈ pkg_types_to_names packages w ++ pkg_types_to_names packages wo ∧
           t ∉ packages.map Prod.fst)) ∧
      ((install_packages packages w wo skip).2 = none →
        (install_packages packages w wo skip).1 =
          (packages.filter (fun np =>
            !(pkg_types_to_names packages wo).contains np.1 &&
            ((pkg_types_to_names packages w).contains np.1 ||
             (!skip && !np.2.optional)))).map install_call) ∧
      pkg_types_to_names packages w =
        w.flatMap (fun t =>
          if (packages.filter (fun np => np.2.type_ == some t)).isEmpty then
            (if t = "" then [] else [t])
          else (packages.filter (fun np => np.2.type_ == some t)).map Prod.fst) := by
  intro packages w wo skip
  have hkey :
      ((((pkg_types_to_names packages w ++ pkg_types_to_names packages wo).filter
        (fun t => !(packages.map Prod.fst).contains t)).dedup).isEmpty = true) ↔
      ∀ t ∈ pkg_types_to_names packages w ++ pkg_types_to_names packages wo,
        t ∈ packages.map Prod.fst := by
    rw [List.isEmpty_iff, List.dedup_eq_nil, List.filter_eq_nil_iff]
    constructor
    · intro h t ht
      have := h t ht
      simp at this
      obtain ⟨x, hx⟩ := this
      exact List.mem_map.mpr ⟨(t, x), hx, rfl⟩
    · intro h t ht
      simp [h t ht]
  refine ⟨?_, ?_, ?_, pkg_types_to_names_eq packages w⟩
  · simp only [install_packages]
    split_ifs with hc
    · simpa using hkey.mp hc
    · simp only [reduceCtorEq, false_iff]
      intro hsub
      exact hc (hkey.mpr hsub)
  · intro errs herrs t
    simp only [install_packages] at herrs
    by_cases hc : ((((pkg_types_to_names packages w ++ pkg_types_to_names packages wo).filter
        (fun t => !(packages.map Prod.fst).contains t)).dedup).isEmpty = true)
    · rw [if_pos hc] at herrs
      exact absurd herrs (by simp)
    · rw [if_neg hc] at herrs
      have hx : (((pkg_types_to_names packages w ++ pkg_types_to_names packages wo).filter
          (fun t => !(packages.map Prod.fst).contains t)).dedup) = errs :=
        Option.some.inj herrs
      subst hx
      simp [List.mem_dedup, List.mem_filter]
      tauto
  · intro hnone
    simp only [install_packages] at hnone ⊢
    by_cases hc : ((((pkg_types_to_names packages w ++ pkg_types_to_names packages wo).filter
        (fun t => !(packages.map Prod.fst).contains t)).dedup).isEmpty = true)
    · simp only [if_pos hc]
      have hfn : (fun (np : String × PkgOpts) =>
          if (pkg_types_to_names packages wo).contains np.1 then none
          else if (pkg_types_to_names packages w).contains np.1 ||
                  !(skip || np.2.optional) then
            some (install_call np)
          else none) =
          (fun (np : String × PkgOpts) =>
            if !(pkg_types_to_names packages wo).contains np.1 &&
               ((pkg_types_to_names packages w).contains np.1 ||
                (!skip && !np.2.optional)) then some (install_call np)
            else none) := by
        funext np
        by_cases h1 : (pkg_types_to_names packages wo).contains np.1
        · simp at h1
          simp [h1]
        · simp at h1
          simp [h1, Bool.not_or]
      rw [hfn, filterMap_ite_eq]
    · rw [if_neg hc] at hnone
      exact absurd hnone (by simp)

/-- C3 witness: the spec scenario — tool-a an optional uploader, tool-b
non-optional, with=["uploader"] — installs exactly tool-a and tool-b. -/
theorem install_packages_selection_witness :
    (install_packages uploaderScenarioPkgs ["uploader"] [] false).1 =
      [InstallCall.nameVersion "tool-a" "*", InstallCall.nameVersion "tool-b" "*"] := by
  have h := (install_packages_selection uploaderScenarioPkgs ["uploader"] [] false).2.2.1
    (by decide)
  rw [h]
  decide

/-! ## Claim theorems: installed-package resolution (C2) -/

theorem foldl_filter_skip {α β : Type} (f : β → α → β) (cand : α → Bool)
    (step : β → α → β) (hstep : ∀ b a, step b a = if cand a then f b a else b) :
    ∀ (l : List α) (acc : β), l.foldl step acc = (l.filter cand).foldl f acc := by
  intro l
  induction l with
  | nil => intro acc; rfl
  | cons p t ih =>
    intro acc
    rw [List.foldl_cons, List.filter_cons, hstep]
    by_cases h : cand p
    · rw [if_pos h, if_pos h, List.foldl_cons, ih]
    · rw [if_neg h, if_neg h, ih]

theorem resolveOne_eq_pickMax (name : String) (rs : Option ReqSpec)
    (installed : List InstalledPackage) :
    resolveOne name rs installed = pickMax (candidatesFor name rs installed) := by
  refine foldl_filter_skip maxStep
    (fun p => decide (p.name = name) && !(rs.isSome && !specMatch (rs.getD []) p.version))
    (fun manifest p =>
      if p.name ≠ name then manifest
      else if rs.isSome && !(specMatch (rs.getD []) p.version) then manifest
      else maxStep manifest p)
    ?_ installed none
  intro b a
  by_cases h1 : a.name = name
  · by_cases h2 : (rs.isSome && !specMatch (rs.getD []) a.version) = true
    · simp [h1, h2]
    · simp only [Bool.not_eq_true] at h2
      simp [h1, h2, maxStep]
  · simp [h1]

theorem foldl_maxStep_isSome :
    ∀ (t : List InstalledPackage) (m : InstalledPackage),
      ∃ r, t.foldl maxStep (some m) = some r := by
  intro t
  induction t with
  | nil => intro m; exact ⟨m, rfl⟩
  | cons p t ih =>
    intro m
    rw [List.foldl_cons]
    by_cases hmp : vlt m.version p.version = true
    · rw [show maxStep (some m) p = some p from by simp [maxStep, hmp]]
      exact ih p
    · rw [show maxStep (some m) p = some m from by
        simp only [Bool.not_eq_true] at hmp; simp [maxStep, hmp]]
      exact ih m

theorem foldl_maxStep_char :
    ∀ (t : List InstalledPackage) (m r : InstalledPackage),
      t.foldl maxStep (some m) = some r →
      ((r = m ∨ r ∈ t) ∧
       vlt r.version m.version = false ∧
       (∀ c ∈ t, vlt r.version c.version = false) ∧
       (r = m ∨ ∃ pre post, t = pre ++ r :: post ∧ vlt m.version r.version = true ∧
          ∀ d ∈ pre, vlt d.version r.version = true)) := by
  intro t
  induction t with
  | nil =>
    intro m r h
    simp only [List.foldl_nil, Option.some.injEq] at h
    subst h
    exact ⟨Or.inl rfl, vlt_irrefl _, by simp, Or.inl rfl⟩
  | cons p t ih =>
    intro m r h
    rw [List.foldl_cons] at h
    by_cases hmp : vlt m.version p.version = true
    · rw [show maxStep (some m) p = some p from by simp [maxStep, hmp]] at h
      obtain ⟨hmem, hrp, hall, hfirst⟩ := ih p r h
      have hmr : vlt m.version r.version = true := vlt_lt_of_lt_of_not_lt _ _ _ hmp hrp
      refine ⟨?_, vlt_asymm _ _ hmr, ?_, ?_⟩
      · rcases hmem with he | ht
        · exact Or.inr (by simp [he])
        · exact Or.inr (List.mem_cons_of_mem _ ht)
      · intro c hc
        rcases List.mem_cons.mp hc with he | ht
        · exact he ▸ hrp
        · exact hall c ht
      · rcases hfirst with he | ⟨pre, post, hsplit, hpr, hpre⟩
        · subst he
          exact Or.inr ⟨[], t, rfl, hmp, by simp⟩
        · refine Or.inr ⟨p :: pre, post, by rw [hsplit]; rfl, hmr, ?_⟩
          intro d hd
          rcases List.mem_cons.mp hd with he | hdp
          · exact he ▸ hpr
          · exact hpre d hdp
    · simp only [Bool.not_eq_true] at hmp
      rw [show maxStep (some m) p = some m from by simp [maxStep, hmp]] at h
      obtain ⟨hmem, hrm, hall, hfirst⟩ := ih m r h
      refine ⟨?_, hrm, ?_, ?_⟩
      · rcases hmem with he | ht
        · exact Or.inl he
        · exact Or.inr (List.mem_cons_of_mem _ ht)
      · intro c hc
        rcases List.mem_cons.mp hc with he | ht
        · exact he ▸ vlt_not_of_not_of_not _ _ _ hrm hmp
        · exact hall c ht
      · rcases hfirst with he | ⟨pre, post, hsplit, hmr, hpre⟩
        · exact Or.inl he
        · refine Or.inr ⟨p :: pre, post, by rw [hsplit]; rfl, hmr, ?_⟩
          intro d hd
          rcases List.mem_cons.mp hd with he | hdp
          · exact he ▸ vlt_of_not_of_lt _ _ _ hmp hmr
          · exact hpre d hdp

theorem pickMax_char (l : List InstalledPackage) (hl : l ≠ []) :
    ∃ r, pickMax l = some r ∧ r ∈ l ∧
      (∀ c ∈ l, vlt r.version c.version = false) ∧
      ∃ pre post, l = pre ++ r :: post ∧
        ∀ d ∈ pre, vlt d.version r.version = true := by
  cases l with
  | nil => exact absurd rfl hl
  | cons a t =>
    have hfold : pickMax (a :: t) = t.foldl maxStep (some a) := rfl
    obtain ⟨r, hr⟩ := foldl_maxStep_isSome t a
    obtain ⟨hmem, hra, hall, hfirst⟩ := foldl_maxStep_char t a r hr
    refine ⟨r, hfold ▸ hr, ?_, ?_, ?_⟩
    · rcases hmem with he | ht
      · simp [he]
      · exact List.mem_cons_of_mem _ ht
    · intro c hc
      rcases List.mem_cons.mp hc with he | ht
      · exact he ▸ hra
      · exact hall c ht
    · rcases hfirst with he | ⟨pre, post, hsplit, har, hpre⟩
      · exact ⟨[], t, by simp [he], by simp⟩
      · refine ⟨a :: pre, post, by rw [hsplit]; rfl, ?_⟩
        intro d hd
        rcases List.mem_cons.mp hd with he | hdp
        · exact he ▸ har
        · exact hpre d hdp

theorem pickMax_nil : pickMax [] = none := rfl

theorem find?_first {α : Type} (p : α → Bool) :
    ∀ (pre : List α) (r : α) (post : List α),
      p r = true → (∀ d ∈ pre, p d = false) →
      (pre ++ r :: post).find? p = some r := by
  intro pre
  induction pre with
  | nil =>
    intro r post hr _
    simp [List.find?_cons, hr]
  | cons d pre ih =>
    intro r post hr hpre
    have hd : p d = false := hpre d (by simp)
    simp only [List.cons_append, List.find?_cons, hd]
    exact ih r post hr (fun e he => hpre e (List.mem_cons_of_mem _ he))

theorem foldl_append_flatMap_of {α β : Type} (g : α → List β)
    (step : List β → α → List β) (hstep : ∀ b a, step b a = b ++ g a) :
    ∀ (l : List α) (acc : List β), l.foldl step acc = acc ++ l.flatMap g := by
  intro l
  induction l with
  | nil => intro acc; simp
  | cons x t ih =>
    intro acc
    rw [List.foldl_cons, hstep]
    simp [ih]

theorem get_installed_packages_eq_flatMap
    (packages : List (String × PkgOpts)) (installed : List InstalledPackage) :
    get_installed_packages packages installed =
      packages.flatMap (fun np =>
        match resolveOne np.1 np.2.version.spec installed with
        | some m => [(np.1, m)]
        | none => []) := by
  have h := foldl_append_flatMap_of
    (fun (np : String × PkgOpts) =>
      match resolveOne np.1 np.2.version.spec installed with
      | some m => [(np.1, m)]
      | none => [])
    (fun items np =>
      match resolveOne np.1 np.2.version.spec installed with
      | some m => items ++ [(np.1, m)]
      | none => items)
    (by
      intro b a
      cases h : resolveOne a.1 a.2.version.spec installed <;> simp [h])
    packages []
  simpa [get_installed_packages] using h

theorem lookup_resolved_absent (installed : List InstalledPackage) :
    ∀ (t : List (String × PkgOpts)) (name : String),
      name ∉ t.map Prod.fst →
      (t.flatMap (fun np =>
        match resolveOne np.1 np.2.version.spec installed with
        | some m => [(np.1, m)]
        | none => [])).lookup name = none := by
  intro t
  induction t with
  | nil => intro name _; rfl
  | cons np t ih =>
    intro name hn
    have hne : name ≠ np.1 := by
      intro he
      exact hn (by simp [he])
    have hnt : name ∉ t.map Prod.fst := by
      intro hmem
      exact hn (by simp [hmem])
    rw [List.flatMap_cons]
    cases h : resolveOne np.1 np.2.version.spec installed with
    | none => simpa using ih name hnt
    | some m =>
      have hbeq : (name == np.1) = false := by simpa using hne
      simp only [List.singleton_append, List.lookup_cons, hbeq]
      exact ih name hnt

theorem lookup_get_installed_packages
    (packages : List (String × PkgOpts)) (installed : List InstalledPackage)
    (name : String) (opts : PkgOpts)
    (hmem : (name, opts) ∈ packages)
    (hnd : (packages.map Prod.fst).Nodup) :
    (get_installed_packages packages installed).lookup name =
      resolveOne name opts.version.spec installed := by
  rw [get_installed_packages_eq_flatMap]
  induction packages with
  | nil => exact absurd hmem (by simp)
  | cons np t ih =>
    rw [List.map_cons, List.nodup_cons] at hnd
    by_cases he : name = np.1
    · have hopts : np = (name, opts) := by
        rcases List.mem_cons.mp hmem with h | h
        · exact h.symm
        · have hmm : name ∈ List.map Prod.fst t :=
            List.mem_map.mpr ⟨(name, opts), h, rfl⟩
          rw [he] at hmm
          exact absurd hmm hnd.1
      subst hopts
      rw [List.flatMap_cons]
      cases h : resolveOne name opts.version.spec installed with
      | none =>
        simpa using lookup_resolved_absent installed t name hnd.1
      | some m =>
        simp [List.lookup_cons]
    · have hmt : (name, opts) ∈ t := by
        rcases List.mem_cons.mp hmem with h | h
        · exact absurd (congrArg Prod.fst h) he
        · exact h
      rw [List.flatMap_cons]
      cases h : resolveOne np.1 np.2.version.spec installed with
      | none => simpa using ih hmt hnd.2
      | some m =>
        have hbeq : (name == np.1) = false := by simpa using he
        simp only [List.singleton_append, List.lookup_cons, hbeq]
        exact ih hmt hnd.2

/-- C2: for a declared requirement, get_installed_packages resolves its
name to the first strictly-maximal candidate among the installed packages
of that name passing the version constraint (no version filtering when
the constraint failed to parse — spec none — in which case the candidates
are all installed packages of that name), and omits the name entirely
when no candidate matches. -/
theorem get_installed_packages_max_match :
    ∀ (packages : List (String × PkgOpts)) (installed : List InstalledPackage)
      (name : String) (opts : PkgOpts),
      (name, opts) ∈ packages →
      (packages.map Prod.fst).Nodup →
      ((candidatesFor name opts.version.spec installed = [] →
        (get_installed_packages packages installed).lookup name = none) ∧
       (candidatesFor name opts.version.spec installed ≠ [] →
        ∃ r, (get_installed_packages packages installed).lookup name = some r ∧
          r ∈ candidatesFor name opts.version.spec installed ∧
          (∀ c ∈ candidatesFor name opts.version.spec installed,
            vlt r.version c.version = false) ∧
          (candidatesFor name opts.version.spec installed).find?
            (fun c => decide (c.version = r.version)) = some r) ∧
       (opts.version.spec = none →
        candidatesFor name opts.version.spec installed =
          installed.filter (fun p => decide (p.name = name)))) := by
  intro packages installed name opts hmem hnd
  have hlk := lookup_get_installed_packages packages installed name opts hmem hnd
  refine ⟨?_, ?_, ?_⟩
  · intro hnil
    rw [hlk, resolveOne_eq_pickMax, hnil, pickMax_nil]
  · intro hne
    obtain ⟨r, hpk, hmem2, hmax, ⟨pre, post, hsplit, hpre⟩⟩ := pickMax_char _ hne
    refine ⟨r, ?_, hmem2, hmax, ?_⟩
    · rw [hlk, resolveOne_eq_pickMax, hpk]
    · rw [hsplit]
      apply find?_first
      · simp
      · intro d hd
        exact decide_eq_false (vlt_ne _ _ (hpre d hd))
  · intro hnone
    simp [candidatesFor, hnone]

/-- C2 witness: the spec scenario — requirement toolchain-x with range
">=1.0.0,<2.0.0" over installed versions 1.2.0, 1.5.0 and 2.0.0 —
resolves to 1.5.0. -/
theorem get_installed_packages_max_match_witness :
    (get_installed_packages toolchainScenarioPkgs toolchainScenarioInstalled).lookup
      "toolchain-x" = some ⟨"toolchain-x", ⟨1, 5, 0⟩⟩ := by
  obtain ⟨r, hr, -, -, -⟩ :=
    (get_installed_packages_max_match toolchainScenarioPkgs toolchainScenarioInstalled
      "toolchain-x"
      { version := { raw := ">=1.0.0,<2.0.0",
                     spec := some [(CmpOp.ge, ⟨1, 0, 0⟩), (CmpOp.lt, ⟨2, 0, 0⟩)] } }
      (by decide) (by decide)).2.1 (by decide)
  have hx : r = (⟨"toolchain-x", ⟨1, 5, 0⟩⟩ : InstalledPackage) :=
    Option.some.inj (hr.symm.trans (by decide))
  rw [← hx]
  exact hr

/-! ## Claim theorems: dependency-aware cleanup (C1) -/

theorem mem_deppkgs (platforms : List (List (String × PkgOpts)))
    (installed : List InstalledPackage) (n : String) (v : SemVer) :
    ((n, v) ∈ deppkgs platforms installed ↔
      ∃ pl ∈ platforms, ∃ e ∈ get_installed_packages pl installed,
        e.1 = n ∧ e.2.version = v) := by
  rw [show deppkgs platforms installed = platforms.flatMap (fun pl =>
      (get_installed_packages pl installed).map (fun nm => (nm.1, nm.2.version))) from by
    simpa [deppkgs] using foldl_append_flatMap_of
      (fun pl => (get_installed_packages pl installed).map (fun nm => (nm.1, nm.2.version)))
      (fun acc pl =>
        acc ++ (get_installed_packages pl installed).map (fun nm => (nm.1, nm.2.version)))
      (fun _ _ => rfl) platforms []]
  rw [List.mem_flatMap]
  constructor
  · rintro ⟨pl, hpl, hm⟩
    rw [List.mem_map] at hm
    obtain ⟨e, he, heq⟩ := hm
    exact ⟨pl, hpl, e, he, congrArg Prod.fst heq, congrArg Prod.snd heq⟩
  · rintro ⟨pl, hpl, e, he, h1, h2⟩
    exact ⟨pl, hpl, List.mem_map.mpr ⟨e, he, by rw [h1, h2]⟩⟩

/-- C1: cleanup uninstalls an installed package exactly when its name is
among the candidate names and no installed platform resolves any of its
requirements to that exact name+version; in particular it never removes a
package version that is the resolved version of a requirement of a
currently installed platform, and never touches names outside the
candidate set. -/
theorem cleanup_packages_orphans_only :
    ∀ (names : List String) (platforms : List (List (String × PkgOpts)))
      (installed : List InstalledPackage) (pkg : InstalledPackage),
      (pkg ∈ cleanup_packages names platforms installed ↔
        (pkg ∈ installed ∧ pkg.name ∈ names ∧
         ∀ pl ∈ platforms, ∀ e ∈ get_installed_packages pl installed,
           ¬(e.1 = pkg.name ∧ e.2.version = pkg.version))) ∧
      (∀ pl ∈ platforms, ∀ e ∈ get_installed_packages pl installed,
        e.1 = pkg.name → e.2.version = pkg.version →
        pkg ∉ cleanup_packages names platforms installed) := by
  intro names platforms installed pkg
  have hmemchar : pkg ∈ cleanup_packages names platforms installed ↔
      (pkg ∈ installed ∧ pkg.name ∈ names ∧
       (pkg.name, pkg.version) ∉ deppkgs platforms installed) := by
    simp [cleanup_packages, List.mem_filter, and_assoc]
  have hnot : ((pkg.name, pkg.version) ∉ deppkgs platforms installed) ↔
      ∀ pl ∈ platforms, ∀ e ∈ get_installed_packages pl installed,
        ¬(e.1 = pkg.name ∧ e.2.version = pkg.version) := by
    rw [mem_deppkgs]
    constructor
    · intro h pl hpl e he hc
      exact h ⟨pl, hpl, e, he, hc.1, hc.2⟩
    · rintro h ⟨pl, hpl, e, he, h1, h2⟩
      exact h pl hpl e he ⟨h1, h2⟩
  constructor
  · rw [hmemchar, hnot]
  · intro pl hpl e he h1 h2 hin
    obtain ⟨-, -, hdep⟩ := hmemchar.mp hin
    exact hdep (mem_deppkgs platforms installed pkg.name pkg.version |>.mpr
      ⟨pl, hpl, e, he, h1, h2⟩)

/-- C1 witness: a package resolved by an installed platform (name "a",
version 1.0.0) is not uninstalled even though its name is a candidate. -/
theorem cleanup_packages_orphans_only_witness :
    (⟨"a", ⟨1, 0, 0⟩⟩ : InstalledPackage) ∉
      cleanup_packages ["a"]
        [[("a", { version := { raw := "*", spec := some [] } })]]
        [⟨"a", ⟨1, 0, 0⟩⟩] :=
  (cleanup_packages_orphans_only ["a"]
    [[("a", { version := { raw := "*", spec := some [] } })]]
    [⟨"a", ⟨1, 0, 0⟩⟩] ⟨"a", ⟨1, 0, 0⟩⟩).2
    [("a", { version := { raw := "*", spec := some [] } })] (by decide)
    ("a", ⟨"a", ⟨1, 0, 0⟩⟩) (by decide) rfl rfl

/-! ## Claim theorems: board catalog caching (C8) -/

theorem lookup_any_true {β : Type} :
    ∀ (c : List (String × β)) (k : String) (v : β),
      c.lookup k = some v → c.any (fun e => e.1 == k) = true := by
  intro c
  induction c with
  | nil => intro k v h; exact absurd h (by simp)
  | cons a t ih =>
    intro k v h
    rw [List.lookup_cons] at h
    by_cases hk : k == a.1
    · have hk2 : k = a.1 := by simpa using hk
      simp [List.any_cons]
      left
      exact hk2.symm
    · rw [show (k == a.1) = false from by simpa using hk] at h
      simp only [List.any_cons, Bool.or_eq_true]
      exact Or.inr (ih k v h)

theorem lookup_none_any_false {β : Type} :
    ∀ (c : List (String × β)) (k : String),
      c.lookup k = none → c.any (fun e => e.1 == k) = false := by
  intro c
  induction c with
  | nil => intro k _; rfl
  | cons a t ih =>
    intro k h
    rw [List.lookup_cons] at h
    by_cases hk : k == a.1
    · rw [show (k == a.1) = true from by simpa using hk] at h
      exact absurd h (by simp)
    · rw [show (k == a.1) = false from by simpa using hk] at h
      simp only [List.any_cons, Bool.or_eq_true, ih k h, or_false]
      simpa using fun he => hk (by simp [he])

theorem lookup_append_right {β : Type} :
    ∀ (c c2 : List (String × β)) (k : String),
      c.lookup k = none → (c ++ c2).lookup k = c2.lookup k := by
  intro c
  induction c with
  | nil => intro c2 k _; rfl
  | cons a t ih =>
    intro c2 k h
    rw [List.lookup_cons] at h
    by_cases hk : k == a.1
    · rw [show (k == a.1) = true from by simpa using hk] at h
      exact absurd h (by simp)
    · have hf : (k == a.1) = false := by simpa using hk
      rw [hf] at h
      rw [List.cons_append, List.lookup_cons, hf]
      exact ih c2 k h

theorem lookup_map_overwrite (cfg : BoardManifest) :
    ∀ (c : BoardsCache) (id : String),
      c.any (fun e => e.1 == id) = true →
      (c.map (fun e => if e.1 == id then (id, cfg) else e)).lookup id = some cfg := by
  intro c
  induction c with
  | nil => intro id h; exact absurd h (by simp)
  | cons a t ih =>
    obtain ⟨k0, v0⟩ := a
    intro id h
    by_cases ha : (k0 == id) = true
    · rw [List.map_cons, if_pos ha]
      simp [List.lookup_cons]
    · rw [List.map_cons, if_neg ha]
      have hka : (id == k0) = false := by
        have hne : ¬(id = k0) := fun he => ha (by simp [he])
        simpa using hne
      simp only [List.lookup_cons, hka]
      apply ih
      simp only [List.any_cons, Bool.or_eq_true] at h
      rcases h with h | h
      · exact absurd h ha
      · exact h

theorem cacheInsert_lookup :
    ∀ (c : BoardsCache) (id : String) (cfg : BoardManifest),
      (cacheInsert c id cfg).lookup id = some cfg := by
  intro c id cfg
  rw [cacheInsert]
  by_cases h : c.any (fun e => e.1 == id) = true
  · rw [if_pos h]
    exact lookup_map_overwrite cfg c id h
  · rw [if_neg h]
    have hnone : c.lookup id = none := by
      cases hl : c.lookup id with
      | none => rfl
      | some v => exact absurd (lookup_any_true c id v hl) h
    rw [lookup_append_right c _ id hnone]
    simp [List.lookup_cons]

theorem boards_cache_after_fresh (pname : String)
    (g l : List (String × BoardManifest)) (cache : BoardsCache) (id : String)
    (hnone : cache.lookup id = none) :
    (boards_cache_after pname g l cache id).lookup id =
      (((l.lookup id).bind (append_board pname)).or
        ((g.lookup id).bind (append_board pname))) := by
  have hany := lookup_none_any_false cache id hnone
  rw [boards_cache_after, if_neg (by simp [hany])]
  simp only [List.foldl_cons, List.foldl_nil]
  cases hg : g.lookup id with
  | none =>
    cases hl : l.lookup id with
    | none => simpa [hg, hl] using hnone
    | some m =>
      cases ha : append_board pname m with
      | none => simpa [hg, hl, ha] using hnone
      | some cfgL => simp [hg, hl, ha, cacheInsert_lookup]
  | some mg =>
    cases hag : append_board pname mg with
    | none =>
      cases hl : l.lookup id with
      | none => simpa [hg, hl, hag] using hnone
      | some m =>
        cases ha : append_board pname m with
        | none => simpa [hg, hl, hag, ha] using hnone
        | some cfgL => simp [hg, hl, hag, ha, cacheInsert_lookup]
    | some cfgA =>
      cases hl : l.lookup id with
      | none => simp [hg, hl, hag, cacheInsert_lookup]
      | some m =>
        cases ha : append_board pname m with
        | none => simp [hg, hl, hag, ha, cacheInsert_lookup]
        | some cfgL => simp [hg, hl, hag, ha, cacheInsert_lookup]

/-- C8 counterexample: with board id "b" present in both directories —
the global manifest named "G", the platform-local one named "L", both
compatible — the first boards(id) call returns the platform-local board:
the by-id loop visits both directories with no early exit and the later
compatible match overwrites the earlier one, so the first match does not
win. -/
theorem get_boards_id_local_overwrites :
    get_boards_id "p" [("b", cexGlobalBoard)] [("b", cexLocalBoard)] [] "b" =
      .ok ({ cexLocalBoard with platform := some "p" },
           [("b", { cexLocalBoard with platform := some "p" })]) ∧
    (append_board "p" cexGlobalBoard).isSome = true ∧
    cexGlobalBoard.name = "G" ∧
    ({ cexLocalBoard with platform := some "p" } : BoardManifest).name = "L" := by
  refine ⟨by rfl, by decide, rfl, rfl⟩

/-- C8 amended: boards(id) is idempotent — a successful call returns a
cache holding the board, and every repeated call answers identically from
that cache without consulting the directories; an id already cached is
answered from the cache unchanged; but on a fresh load the global
directory is visited before the platform-local one with no early exit,
so the LAST compatible match (platform-local over global) wins, and the
call fails with UnknownBoard when neither directory yields a compatible
manifest. -/
theorem get_boards_id_cached :
    ∀ (pname : String) (g l : List (String × BoardManifest))
      (cache : BoardsCache) (id : String) (cfg : BoardManifest) (c1 : BoardsCache),
      (get_boards_id pname g l cache id = .ok (cfg, c1) →
        get_boards_id pname g l c1 id = .ok (cfg, c1)) ∧
      (cache.lookup id = some cfg →
        get_boards_id pname g l cache id = .ok (cfg, cache)) ∧
      (cache.lookup id = none → get_boards_id pname g l cache id = .ok (cfg, c1) →
        some cfg = (((l.lookup id).bind (append_board pname)).or
          ((g.lookup id).bind (append_board pname)))) ∧
      (cache.lookup id = none →
        (((l.lookup id).bind (append_board pname)).or
          ((g.lookup id).bind (append_board pname))) = none →
        get_boards_id pname g l cache id = .error (.unknownBoard id)) := by
  intro pname g l cache id cfg c1
  refine ⟨?_, ?_, ?_, ?_⟩
  · intro h
    simp only [get_boards_id] at h
    cases hB : (boards_cache_after pname g l cache id).lookup id with
    | none =>
      rw [hB] at h
      exact absurd h (by simp)
    | some cfg' =>
      rw [hB] at h
      simp only [Except.ok.injEq, Prod.mk.injEq] at h
      have hany := lookup_any_true _ id cfg' hB
      have hBc : boards_cache_after pname g l
          (boards_cache_after pname g l cache id) id =
          boards_cache_after pname g l cache id := by
        rw [boards_cache_after, if_pos hany]
      rw [← h.2, ← h.1]
      simp only [get_boards_id, hBc, hB]
  · intro hc
    have hany := lookup_any_true _ id cfg hc
    have hBc : boards_cache_after pname g l cache id = cache := by
      rw [boards_cache_after, if_pos hany]
    simp only [get_boards_id, hBc, hc]
  · intro hnone h
    have hfresh := boards_cache_after_fresh pname g l cache id hnone
    simp only [get_boards_id, hfresh] at h
    cases ho : (((l.lookup id).bind (append_board pname)).or
        ((g.lookup id).bind (append_board pname))) with
    | none =>
      rw [ho] at h
      exact absurd h (by simp)
    | some c =>
      rw [ho] at h
      simp only [Except.ok.injEq, Prod.mk.injEq] at h
      rw [h.1]
  · intro hnone ho
    have hfresh := boards_cache_after_fresh pname g l cache id hnone
    simp only [get_boards_id, hfresh, ho]

/-- C8 amended, witness: after a first successful load of board "b" from
the global directory, the repeated call returns the identical cached
value. -/
theorem get_boards_id_cached_witness :
    get_boards_id "p" [("b", cexGlobalBoard)] [] [("b",
      { cexGlobalBoard with platform := some "p" })] "b" =
      .ok ({ cexGlobalBoard with platform := some "p" },
           [("b", { cexGlobalBoard with platform := some "p" })]) :=
  (get_boards_id_cached "p" [("b", cexGlobalBoard)] [] [] "b"
    { cexGlobalBoard with platform := some "p" }
    [("b", { cexGlobalBoard with platform := some "p" })]).1 (by rfl)
